import Mathlib

/-!
Shallow embedding of `telegram_service.py` (Intellirim/telegram_collector).

The embedding mirrors the source module function by function:

* `fetch_channel_messages` embeds the adapter of the same name.  The telethon
  transport is modelled by a `Channel`: its `entityOk` flag is the outcome of
  `client.get_entity`, and `events` is the newest-first stream produced by
  `client.iter_messages`, where a stream element is either a yielded message,
  a raised `FloodWaitError` carrying its wait seconds, or another raised
  transport exception.  telethon's `min_id=k` parameter makes the transport
  itself yield only messages with `id > k`; `transportStream` applies that
  transport-side filter.
* `collect_all` embeds the collection engine: checkpoint load, per-channel
  sequential fetch, checkpoint advance to the per-channel maximum id,
  string-keyed dict dedup, and the ordered writes (run artifact, latest view,
  checkpoints).  File writes are recorded as an ordered `WriteEvent` trace.
* `load_cp` embeds checkpoint loading; the persisted file is `none` when
  absent, otherwise content that either parses to a mapping or is corrupt
  (in which case `json.load` raises, modelled as `Except.error`).
* Python `dict` values are modelled as ordered association lists with unique
  keys: `pyGet` is `dict.get`, `pySet` is item assignment (overwrite keeps the
  original position, new keys append at the end), exactly CPython semantics.
* `get_messages` and `list_files` embed the two read endpoints.  Timestamps
  are naive-UTC instants modelled as integer seconds; `timedelta(hours=h)`
  is `h * 3600`.  Message ids are the positive integers telethon assigns,
  modelled as `Nat`; Python `str(id)` is `Nat.repr`.
-/

namespace TelegramCollector

/-- One message object yielded by the telethon transport: the fields the
collector reads from `msg`.  `date` is `none` when `msg.date is None`. -/
structure TMsg where
  id : Nat
  date : Option Int
  message : Option String
  views : Option Nat
  forwards : Option Nat
  reactions : Option String
  repliesComments : Option Nat
deriving DecidableEq

/-- One element of the transport stream for a channel: a yielded message, a
raised `FloodWaitError` with its advertised wait, or another raised
transport exception. -/
inductive FetchEvent where
  | message (m : TMsg)
  | floodWait (seconds : Nat)
  | transportError
deriving DecidableEq

/-- A channel as seen through the transport: its name, whether
`client.get_entity` succeeds, and the newest-first raw event stream that
`client.iter_messages` would produce with no `min_id` restriction. -/
structure Channel where
  name : String
  entityOk : Bool
  events : List FetchEvent
deriving DecidableEq

/-- The transport-side `min_id` restriction of telethon: with `min_id=k` the
transport yields only messages with `id > k`; raised errors still occur. -/
def passesMinId (min_id : Option Nat) : FetchEvent → Bool
  | FetchEvent.message m =>
    match min_id with
    | none => true
    | some k => decide (k < m.id)
  | _ => true

/-- The event stream `client.iter_messages(entity, limit=None, min_id=min_id)`
produces for a channel, given its raw stream. -/
def transportStream (events : List FetchEvent) (min_id : Option Nat) : List FetchEvent :=
  events.filter (passesMinId min_id)

/-- The record dict built for one message inside `fetch_channel_messages`
(the `rec = { ... }` literal).  The `date` field stores the instant whose
`isoformat()` string the Python code stores. -/
structure MsgRec where
  channel : String
  id : Nat
  text : Option String
  views : Option Nat
  forwards : Option Nat
  reactions : Option String
  replyCount : Option Nat
  date : Int
  url : String
deriving DecidableEq

/-- Building the `rec` dict from a message with date `d`:
`url = f"https://t.me/(channel)/(msg.id)"`. -/
def msgToRec (channel : String) (m : TMsg) (d : Int) : MsgRec :=
  { channel := channel
    id := m.id
    text := m.message
    views := m.views
    forwards := m.forwards
    reactions := m.reactions
    replyCount := m.repliesComments
    date := d
    url := "https://t.me/" ++ channel ++ "/" ++ Nat.repr m.id }

/-- Result of one `fetch_channel_messages` invocation: the returned list and
the seconds slept before returning (1 after a completed loop, by
`asyncio.sleep(1)`; `fw.seconds + 1` after a `FloodWaitError`; 0 after a
failed `get_entity` or another transport exception). -/
structure FetchResult where
  items : List MsgRec
  sleepSeconds : Nat
deriving DecidableEq

/-- The `async for msg in client.iter_messages(...)` loop body of
`fetch_channel_messages`, processing the (already `min_id`-restricted)
stream with accumulator `out`:
skip a message with no date; in bootstrap mode (`min_id is None`) stop at the
first message strictly older than `since_dt`; append the record; stop once
`limit` (when nonzero — `if limit and len(out) >= limit`) is reached. -/
def fetchLoop (channel : String) (since_dt : Int) (limit : Nat) (min_id : Option Nat) :
    List FetchEvent → List MsgRec → FetchResult
  | [], out => { items := out, sleepSeconds := 1 }
  | FetchEvent.floodWait s :: _, out => { items := out, sleepSeconds := s + 1 }
  | FetchEvent.transportError :: _, out => { items := out, sleepSeconds := 0 }
  | FetchEvent.message m :: rest, out =>
    match m.date with
    | none => fetchLoop channel since_dt limit min_id rest out
    | some d =>
      if min_id = none ∧ d < since_dt then
        { items := out, sleepSeconds := 1 }
      else
        let out' := out ++ [msgToRec channel m d]
        if limit ≠ 0 ∧ limit ≤ out'.length then
          { items := out', sleepSeconds := 1 }
        else
          fetchLoop channel since_dt limit min_id rest out'

/-- Embedding of `fetch_channel_messages(channel, since_dt, limit, min_id)`:
a failed `get_entity` logs and returns the empty list; otherwise the
transport stream (restricted by `min_id` at the transport) is consumed by
the loop with an empty accumulator. -/
def fetch_channel_messages (ch : Channel) (since_dt : Int) (limit : Nat)
    (min_id : Option Nat) : FetchResult :=
  if ch.entityOk then
    fetchLoop ch.name since_dt limit min_id (transportStream ch.events min_id) []
  else
    { items := [], sleepSeconds := 0 }

/-- Python `dict.get k`: first (unique) binding of `k`, else `None`. -/
def pyGet {α : Type} : List (String × α) → String → Option α
  | [], _ => none
  | (k', v) :: rest, k => if k' = k then some v else pyGet rest k

/-- Python `d[k] = v` on an ordered dict with unique keys: overwrite in place
keeping the original position, or append a new binding at the end. -/
def pySet {α : Type} : List (String × α) → String → α → List (String × α)
  | [], k, v => [(k, v)]
  | (k', v') :: rest, k, v =>
    if k' = k then (k, v) :: rest else (k', v') :: pySet rest k v

/-- Content of the persisted checkpoint file: either bytes that parse as the
sourceId-to-itemId mapping, or bytes that `json.load` rejects. -/
inductive CpFileContent where
  | valid (cp : List (String × Nat))
  | corrupt
deriving DecidableEq

/-- Behaviour of `json.load` on the checkpoint file: corrupt content raises
`json.JSONDecodeError`. -/
def json_load_checkpoints : CpFileContent → Except String (List (String × Nat))
  | CpFileContent.valid cp => Except.ok cp
  | CpFileContent.corrupt => Except.error "JSONDecodeError"

/-- Embedding of `load_cp()`: if the checkpoint file exists it is parsed with
`json.load` (there is no exception handler around it), otherwise the empty
mapping is returned. -/
def load_cp : Option CpFileContent → Except String (List (String × Nat))
  | some content => json_load_checkpoints content
  | none => Except.ok []

/-- Python `max(m["id"] for m in msgs)` for a nonempty `msgs` of `Nat` ids:
the fold of `Nat.max` from 0 equals the maximum of a nonempty `Nat` list. -/
def maxId (msgs : List MsgRec) : Nat :=
  (msgs.map MsgRec.id).foldl Nat.max 0

/-- Dedup key `f"(channel):(id)"` used by `collect_all`; Python `str` of an
`int` id is its decimal representation `Nat.repr`. -/
def dedupKey (r : MsgRec) : String :=
  r.channel ++ ":" ++ Nat.repr r.id

/-- Embedding of `list({f"(channel):(id)": r for r in results}.values())`:
build a dict keyed by `dedupKey` in stream order (later duplicates overwrite
earlier values in place) and keep the values. -/
def dedupe (results : List MsgRec) : List MsgRec :=
  (results.foldl (fun d r => pySet d (dedupKey r) r) []).map Prod.snd

/-- One iteration of the `for ch in channels` loop inside `collect_all`,
acting on the accumulated `(results, new_cp)` pair.  `last_id` is
`cp.get(ch) if cp else None` against the mapping loaded at the start of the
run; when the fetch returned any messages the channel's checkpoint is set to
their maximum id. -/
def channelStep (cp : List (String × Nat)) (since_dt : Int) (limit : Nat)
    (acc : List MsgRec × List (String × Nat)) (ch : Channel) :
    List MsgRec × List (String × Nat) :=
  let last_id := if cp.isEmpty then none else pyGet cp ch.name
  let msgs := (fetch_channel_messages ch since_dt limit last_id).items
  (acc.1 ++ msgs, if msgs.isEmpty then acc.2 else pySet acc.2 ch.name (maxId msgs))

/-- The whole `for ch in channels` loop of `collect_all`, starting from no
results and `new_cp = dict(cp)`. -/
def collectChannels (channels : List Channel) (cp : List (String × Nat))
    (since_dt : Int) (limit : Nat) : List MsgRec × List (String × Nat) :=
  channels.foldl (channelStep cp since_dt limit) ([], cp)

/-- One persisted-state write performed by `collect_all`, in program order:
the timestamped run artifact, the overwritten `latest.json`, and the
checkpoint file written by `save_cp`. -/
inductive WriteEvent where
  | writeRunFile (path : String) (items : List MsgRec)
  | writeLatest (items : List MsgRec)
  | writeCheckpoints (cp : List (String × Nat))
deriving DecidableEq

/-- Snapshot writes are the run-artifact write and the latest-view write. -/
def isSnapshotWrite : WriteEvent → Bool
  | WriteEvent.writeRunFile _ _ => true
  | WriteEvent.writeLatest _ => true
  | WriteEvent.writeCheckpoints _ => false

/-- The checkpoint write is the `save_cp` call. -/
def isCheckpointWrite : WriteEvent → Bool
  | WriteEvent.writeCheckpoints _ => true
  | _ => false

/-- The dict returned by `collect_all`. -/
structure RunResult where
  path : String
  count : Nat
  mode : String
deriving DecidableEq

/-- Full observable outcome of one `collect_all` run: the returned summary,
the deduplicated item set, the checkpoint mapping passed to `save_cp`, and
the ordered trace of persisted-state writes. -/
structure RunOutcome where
  result : RunResult
  final : List MsgRec
  new_cp : List (String × Nat)
  writes : List WriteEvent
deriving DecidableEq

/-- Embedding of `collect_all(channels, since_hours, per_channel_limit)` at
instant `now` with run timestamp string `run_ts`.  `since_dt` is
`utcnow() - timedelta(hours=since_hours)`; the checkpoint file is loaded by
`load_cp` (whose `json.load` error would propagate out of the run); mode is
`"incremental"` iff the loaded mapping is nonempty; each channel is fetched
sequentially; the results are deduplicated; and the writes happen in the
order run artifact, latest view, checkpoints. -/
def collect_all (channels : List Channel) (cpFile : Option CpFileContent)
    (now : Int) (run_ts : String) (since_hours : Nat) (per_channel_limit : Nat) :
    Except String RunOutcome :=
  match load_cp cpFile with
  | Except.error e => Except.error e
  | Except.ok cp =>
    let since_dt := now - (since_hours : Int) * 3600
    let mode := if cp.isEmpty then "bootstrap" else "incremental"
    let rc := collectChannels channels cp since_dt per_channel_limit
    let final := dedupe rc.1
    let outfile := "exports/telegram_messages_" ++ run_ts ++ ".json"
    Except.ok
      { result := { path := outfile, count := final.length, mode := mode }
        final := final
        new_cp := rc.2
        writes := [WriteEvent.writeRunFile outfile final,
                   WriteEvent.writeLatest final,
                   WriteEvent.writeCheckpoints rc.2] }

/-- Response body of `GET /telegram/messages`. -/
structure MessagesResponse where
  source : Option String
  messages : List MsgRec
  count : Nat
  note : Option String
deriving DecidableEq

/-- Embedding of the read path of `get_messages(since_hours, refresh=False)`.
FastAPI rejects `since_hours` outside `Query(24, ge=1, le=168)` with a 422
before the handler runs.  `latest` is the parsed content of `latest.json`
(`none` when the file does not exist).  Each stored item's `date` was written
as `isoformat()` of a real instant, so the per-item parse never fails and the
filter keeps exactly the items with `date >= utcnow() - timedelta(hours=H)`. -/
def get_messages (latest : Option (List MsgRec)) (now : Int) (since_hours : Nat) :
    Except String MessagesResponse :=
  if since_hours < 1 ∨ 168 < since_hours then
    Except.error "422 Unprocessable Entity"
  else
    match latest with
    | none =>
      Except.ok { source := none, messages := [], count := 0,
                  note := some "no data collected" }
    | some data =>
      let cutoff := now - (since_hours : Int) * 3600
      let filtered := data.filter (fun m => decide (cutoff ≤ m.date))
      Except.ok { source := some "latest.json", messages := filtered,
                  count := filtered.length, note := none }

/-- Python `s.endswith(p)`. -/
def strEndsWith (s p : String) : Bool :=
  p.data.isSuffixOf s.data

/-- Lexicographic order on character lists by code point, the order Python
string comparison uses. -/
def charsLe : List Char → List Char → Bool
  | [], _ => true
  | _ :: _, [] => false
  | a :: as, b :: bs =>
    if a < b then true
    else if b < a then false
    else charsLe as bs

/-- Python string `<=`: lexicographic by code point. -/
def strLeB (a b : String) : Bool :=
  charsLe a.data b.data

/-- Stable insertion of a string into a sorted list. -/
def insertSorted (x : String) : List String → List String
  | [] => [x]
  | y :: ys => if strLeB x y then x :: y :: ys else y :: insertSorted x ys

/-- Python `sorted` on strings: a stable sort under the total, antisymmetric
code-point order, realized as insertion sort (the sorted result is the
same). -/
def sortStrings : List String → List String
  | [] => []
  | x :: xs => insertSorted x (sortStrings xs)

/-- Embedding of `list_files()`: the names in `OUTPUT_DIR` ending in
`.json`, sorted as plain strings (Python `sorted`). -/
def list_files (dirEntries : List String) : List String :=
  sortStrings (dirEntries.filter (fun f => strEndsWith f ".json"))

/-- A per-run snapshot artifact is a file named
`telegram_messages_(run_ts).json`. -/
def isRunArtifact (f : String) : Bool :=
  "telegram_messages_".data.isPrefixOf f.data && strEndsWith f ".json"

/-- A stream consisting only of yielded messages (no raised transport
errors). -/
def isMessageEvent : FetchEvent → Bool
  | FetchEvent.message _ => true
  | _ => false

/-- The records the loop would build from the dated messages of a stream, in
stream order, skipping messages with no date. -/
def datedRecords (channel : String) (events : List FetchEvent) : List MsgRec :=
  events.filterMap (fun e =>
    match e with
    | FetchEvent.message m =>
      match m.date with
      | some d => some (msgToRec channel m d)
      | none => none
    | _ => none)

/-- The cap rule `if limit and len(out) >= limit`: a zero limit is falsy and
disables the cap, a nonzero limit truncates. -/
def pyCap {α : Type} (limit : Nat) (l : List α) : List α :=
  if limit = 0 then l else l.take limit

/-- Expected incremental-mode result: the dated records with id above the
checkpoint, in stream order, capped. -/
def expectedIncremental (channel : String) (k : Nat) (limit : Nat)
    (events : List FetchEvent) : List MsgRec :=
  pyCap limit ((datedRecords channel events).filter (fun r => decide (k < r.id)))

/-- Expected bootstrap-mode result: the dated records up to the first one
strictly older than `since_dt`, capped. -/
def expectedBootstrap (channel : String) (since_dt : Int) (limit : Nat)
    (events : List FetchEvent) : List MsgRec :=
  pyCap limit ((datedRecords channel events).takeWhile (fun r => decide (since_dt ≤ r.date)))

/-- Decimal digit value of a digit character. -/
def digitVal (c : Char) : Nat := c.toNat - '0'.toNat

/-- Value of a most-significant-first decimal digit string. -/
def valOfDigits (ds : List Char) : Nat :=
  ds.foldl (fun a c => 10 * a + digitVal c) 0

/-- Structural form of the decimal digit list `Nat.toDigits 10 n` computes:
the digits of `n / 10` (when any) followed by the digit of `n % 10`. -/
def natDigits (n : Nat) : List Char :=
  if h : n / 10 = 0 then
    [Nat.digitChar (n % 10)]
  else
    natDigits (n / 10) ++ [Nat.digitChar (n % 10)]
termination_by n
decreasing_by
  have hn : n ≠ 0 := by
    intro h0
    rw [h0] at h
    simp at h
  exact Nat.div_lt_self (Nat.pos_of_ne_zero hn) (by decide)

/-- Derived closed form of the outcome `collect_all` produces when the
checkpoint load succeeded with mapping `cp` (proved equal to `collect_all`
in `collect_all_eq_ok`). -/
def runOutcomeOf (channels : List Channel) (cp : List (String × Nat)) (now : Int)
    (run_ts : String) (since_hours : Nat) (per_channel_limit : Nat) : RunOutcome :=
  let since_dt := now - (since_hours : Int) * 3600
  let rc := collectChannels channels cp since_dt per_channel_limit
  let final := dedupe rc.1
  let outfile := "exports/telegram_messages_" ++ run_ts ++ ".json"
  { result := { path := outfile, count := final.length,
                mode := if cp.isEmpty then "bootstrap" else "incremental" }
    final := final
    new_cp := rc.2
    writes := [WriteEvent.writeRunFile outfile final,
               WriteEvent.writeLatest final,
               WriteEvent.writeCheckpoints rc.2] }

/-- Fixture for the witnesses: a dated newest-first stream with ids
105, 101, 99, 98, matching the spec's incremental-cursor example. -/
def exStreamInc : List FetchEvent :=
  [FetchEvent.message (TMsg.mk 105 (some 500) none none none none none),
   FetchEvent.message (TMsg.mk 101 (some 400) none none none none none),
   FetchEvent.message (TMsg.mk 99 (some 300) none none none none none),
   FetchEvent.message (TMsg.mk 98 (some 200) none none none none none)]

/-- Fixture channel with the incremental-cursor stream. -/
def exChannelInc : Channel := Channel.mk "WhaleFollower" true exStreamInc

/-- Fixture for the bootstrap-horizon witness at `T = 0` (seconds): a
dateless message followed by messages at `T-1h`, `T-10h`, `T-30h`. -/
def exStreamBoot : List FetchEvent :=
  [FetchEvent.message (TMsg.mk 4 none none none none none none),
   FetchEvent.message (TMsg.mk 3 (some (-3600)) none none none none none),
   FetchEvent.message (TMsg.mk 2 (some (-36000)) none none none none none),
   FetchEvent.message (TMsg.mk 1 (some (-108000)) none none none none none)]

/-- Fixture channel with the bootstrap stream. -/
def exChannelBoot : Channel := Channel.mk "cryptoquant_kr" true exStreamBoot

/-- Fixture for the rate-limit witness: three yielded messages, then a
`FloodWaitError` of 30 seconds, then one more message never reached. -/
def exStreamRLpre : List FetchEvent :=
  [FetchEvent.message (TMsg.mk 13 (some 30) none none none none none),
   FetchEvent.message (TMsg.mk 12 (some 20) none none none none none),
   FetchEvent.message (TMsg.mk 11 (some 10) none none none none none)]

/-- Fixture channel raising a rate-limit signal after three messages. -/
def exChannelRL : Channel :=
  Channel.mk "coinnesskr" true
    (exStreamRLpre ++ FetchEvent.floodWait 30 ::
      [FetchEvent.message (TMsg.mk 10 (some 5) none none none none none)])

/-- Fixture channel whose entity resolution fails. -/
def exChannelBad : Channel := Channel.mk "emperorcoin" false []

/-- Fixture records sharing the dedup key `a:1`, differing in payload. -/
def exRecA : MsgRec := MsgRec.mk "a" 1 none none none none none 10 "u1"

/-- Second record with the same key, appearing later in the stream. -/
def exRecB : MsgRec := MsgRec.mk "a" 1 none none none none none 20 "u2"

theorem collect_all_eq_ok (channels : List Channel) (cpFile : Option CpFileContent)
    (now : Int) (run_ts : String) (since_hours per_channel_limit : Nat)
    (cp : List (String × Nat)) (hload : load_cp cpFile = Except.ok cp) :
    collect_all channels cpFile now run_ts since_hours per_channel_limit =
      Except.ok (runOutcomeOf channels cp now run_ts since_hours per_channel_limit) := by
  simp [collect_all, hload, runOutcomeOf]

/-- C6 counterexample: a present-but-corrupt checkpoint file makes `load_cp`
raise the `json.load` error instead of returning the empty mapping. -/
theorem claim_C6_counterexample :
    load_cp (some CpFileContent.corrupt) = Except.error "JSONDecodeError" ∧
    load_cp (some CpFileContent.corrupt) ≠ Except.ok ([] : List (String × Nat)) := by
  refine ⟨rfl, ?_⟩
  intro h
  simp [load_cp, json_load_checkpoints] at h

/-- C6 (amended): checkpoint load returns the empty mapping when the
persisted file is absent and the parsed mapping when it is valid, but a
present corrupted file raises the `json.load` error (there is no exception
handler in `load_cp`), rather than degrading to the empty mapping. -/
theorem claim_C6 :
    load_cp none = Except.ok ([] : List (String × Nat)) ∧
    (∀ cp : List (String × Nat),
      load_cp (some (CpFileContent.valid cp)) = Except.ok cp) ∧
    load_cp (some CpFileContent.corrupt) = Except.error "JSONDecodeError" :=
  ⟨rfl, fun _ => rfl, rfl⟩

/-- C9 counterexample: after one completed run the output directory holds the
run artifact together with `latest.json` and `checkpoints.json`; `list_files`
returns `latest.json` as well, which is not a per-run snapshot artifact. -/
theorem claim_C9_counterexample :
    "latest.json" ∈ list_files
      ["telegram_messages_20250101_000000Z.json", "latest.json", "checkpoints.json"] ∧
    isRunArtifact "latest.json" = false := by
  constructor
  · decide
  · decide

theorem charsLe_total (a b : List Char) : charsLe a b || charsLe b a := by
  induction a generalizing b with
  | nil => simp [charsLe]
  | cons x as ih =>
    cases b with
    | nil => simp [charsLe]
    | cons y bs =>
      rcases lt_trichotomy x y with h | h | h
      · simp [charsLe, h]
      · subst h
        simpa [charsLe, lt_irrefl] using ih bs
      · simp [charsLe, h, not_lt_of_gt h]

theorem charsLe_trans (a b c : List Char) (h1 : charsLe a b) (h2 : charsLe b c) :
    charsLe a c := by
  induction a generalizing b c with
  | nil => simp [charsLe]
  | cons x as ih =>
    cases b with
    | nil => simp [charsLe] at h1
    | cons y bs =>
      cases c with
      | nil => simp [charsLe] at h2
      | cons z cs =>
        rcases lt_trichotomy x y with hxy | hxy | hxy
        · rcases lt_trichotomy y z with hyz | hyz | hyz
          · simp [charsLe, lt_trans hxy hyz]
          · subst hyz; simp [charsLe, hxy]
          · simp [charsLe, hyz, not_lt_of_gt hyz] at h2
        · subst hxy
          rcases lt_trichotomy x z with hxz | hxz | hxz
          · simp [charsLe, hxz]
          · subst hxz
            simp only [charsLe, lt_irrefl, if_false] at h1 h2 ⊢
            exact ih bs cs h1 h2
          · simp [charsLe, hxz, not_lt_of_gt hxz] at h2
        · simp [charsLe, hxy, not_lt_of_gt hxy] at h1

theorem strLeB_trans {a b c : String} (h1 : strLeB a b = true) (h2 : strLeB b c = true) :
    strLeB a c = true :=
  charsLe_trans a.data b.data c.data h1 h2

theorem strLeB_total_of_not {a b : String} (h : ¬ strLeB a b = true) : strLeB b a = true := by
  have := charsLe_total a.data b.data
  rcases Bool.or_eq_true_iff.mp this with h1 | h1
  · exact absurd h1 h
  · exact h1

theorem mem_insertSorted {a x : String} {l : List String} :
    a ∈ insertSorted x l ↔ a = x ∨ a ∈ l := by
  induction l with
  | nil => simp [insertSorted]
  | cons y ys ih =>
    by_cases h : strLeB x y = true
    · simp only [insertSorted, if_pos h, List.mem_cons]
    · simp only [insertSorted, if_neg h, List.mem_cons, ih]
      tauto

theorem mem_sortStrings {a : String} {l : List String} :
    a ∈ sortStrings l ↔ a ∈ l := by
  induction l with
  | nil => simp [sortStrings]
  | cons x xs ih =>
    simp only [sortStrings, mem_insertSorted, ih, List.mem_cons]

theorem pairwise_insertSorted (x : String) (l : List String)
    (h : l.Pairwise (fun a b => strLeB a b = true)) :
    (insertSorted x l).Pairwise (fun a b => strLeB a b = true) := by
  induction l with
  | nil => simp [insertSorted]
  | cons y ys ih =>
    rw [List.pairwise_cons] at h
    obtain ⟨hy, hys⟩ := h
    by_cases hxy : strLeB x y = true
    · rw [insertSorted, if_pos hxy]
      refine List.pairwise_cons.mpr ⟨?_, List.pairwise_cons.mpr ⟨hy, hys⟩⟩
      intro b hb
      rcases List.mem_cons.mp hb with rfl | hb'
      · exact hxy
      · exact strLeB_trans hxy (hy b hb')
    · rw [insertSorted, if_neg hxy]
      refine List.pairwise_cons.mpr ⟨?_, ih hys⟩
      intro b hb
      rcases mem_insertSorted.mp hb with rfl | hb'
      · exact strLeB_total_of_not hxy
      · exact hy b hb'

theorem pairwise_sortStrings (l : List String) :
    (sortStrings l).Pairwise (fun a b => strLeB a b = true) := by
  induction l with
  | nil => simp [sortStrings]
  | cons x xs ih => exact pairwise_insertSorted x (sortStrings xs) ih

/-- C9 (amended): `GET /files` returns the sorted list of all `.json` files
in the output directory — the per-run snapshot artifacts together with
`latest.json` and `checkpoints.json` — rather than run artifacts only. -/
theorem claim_C9 (dirEntries : List String) :
    (∀ f, f ∈ list_files dirEntries ↔ f ∈ dirEntries ∧ strEndsWith f ".json" = true) ∧
    (list_files dirEntries).Pairwise (fun a b : String => strLeB a b = true) := by
  constructor
  · intro f
    unfold list_files
    rw [mem_sortStrings, List.mem_filter]
  · exact pairwise_sortStrings _

theorem fetchLoop_since_eq (channel : String) (s₁ s₂ : Int) (limit k : Nat)
    (st : List FetchEvent) (out : List MsgRec) :
    fetchLoop channel s₁ limit (some k) st out = fetchLoop channel s₂ limit (some k) st out := by
  induction st generalizing out with
  | nil => rfl
  | cons e rest ih =>
    cases e with
    | floodWait s => rfl
    | transportError => rfl
    | message m =>
      cases hd : m.date with
      | none => simpa only [fetchLoop, hd] using ih out
      | some d =>
        have h₁ : ¬((some k : Option Nat) = none ∧ d < s₁) := by simp
        have h₂ : ¬((some k : Option Nat) = none ∧ d < s₂) := by simp
        simp only [fetchLoop, hd]
        rw [if_neg h₁, if_neg h₂]
        by_cases hcap : limit ≠ 0 ∧ limit ≤ (out ++ [msgToRec channel m d]).length
        · rw [if_pos hcap, if_pos hcap]
        · rw [if_neg hcap, if_neg hcap]
          exact ih _

theorem fetchLoop_items_mem (channel : String) (since_dt : Int) (limit : Nat)
    (min_id : Option Nat) (st : List FetchEvent) (out : List MsgRec) (r : MsgRec)
    (hr : r ∈ (fetchLoop channel since_dt limit min_id st out).items) :
    r ∈ out ∨ ∃ m d, FetchEvent.message m ∈ st ∧ m.date = some d ∧ r = msgToRec channel m d := by
  induction st generalizing out with
  | nil => exact Or.inl hr
  | cons e rest ih =>
    cases e with
    | floodWait s => exact Or.inl hr
    | transportError => exact Or.inl hr
    | message m =>
      cases hd : m.date with
      | none =>
        simp only [fetchLoop, hd] at hr
        rcases ih out hr with h | ⟨m', d', hm, hd', hr'⟩
        · exact Or.inl h
        · exact Or.inr ⟨m', d', List.mem_cons_of_mem _ hm, hd', hr'⟩
      | some d =>
        simp only [fetchLoop, hd] at hr
        by_cases hsb : min_id = none ∧ d < since_dt
        · rw [if_pos hsb] at hr
          exact Or.inl hr
        · rw [if_neg hsb] at hr
          by_cases hcap : limit ≠ 0 ∧ limit ≤ (out ++ [msgToRec channel m d]).length
          · rw [if_pos hcap] at hr
            rcases List.mem_append.mp hr with h | h
            · exact Or.inl h
            · exact Or.inr ⟨m, d, List.mem_cons_self _ _, hd,
                (List.mem_singleton.mp h)⟩
          · rw [if_neg hcap] at hr
            rcases ih _ hr with h | ⟨m', d', hm, hd', hr'⟩
            · rcases List.mem_append.mp h with h' | h'
              · exact Or.inl h'
              · exact Or.inr ⟨m, d, List.mem_cons_self _ _, hd,
                  (List.mem_singleton.mp h')⟩
            · exact Or.inr ⟨m', d', List.mem_cons_of_mem _ hm, hd', hr'⟩

theorem fetch_incremental_ids (ch : Channel) (since_dt : Int) (limit k : Nat) (r : MsgRec)
    (hr : r ∈ (fetch_channel_messages ch since_dt limit (some k)).items) :
    k < r.id := by
  rw [fetch_channel_messages] at hr
  by_cases hok : ch.entityOk = true
  · rw [if_pos hok] at hr
    rcases fetchLoop_items_mem _ _ _ _ _ _ _ hr with h | ⟨m, d, hm, _, hr'⟩
    · cases h
    · have hp := (List.mem_filter.mp hm).2
      have : k < m.id := by
        simpa [passesMinId] using hp
      rw [hr']
      exact this
  · rw [if_neg hok] at hr
    cases hr

theorem datedRecords_transportStream (channel : String) (k : Nat) (events : List FetchEvent) :
    datedRecords channel (transportStream events (some k)) =
      (datedRecords channel events).filter (fun r => decide (k < r.id)) := by
  unfold datedRecords transportStream
  rw [List.filterMap_filter, List.filter_filterMap]
  refine List.filterMap_congr ?_
  intro e _
  cases e with
  | floodWait s => simp [passesMinId]
  | transportError => simp [passesMinId]
  | message m =>
    cases hd : m.date with
    | none => simp [passesMinId, hd]
    | some d =>
      simp only [passesMinId, hd, Option.filter_some]
      by_cases hk : k < m.id
      · rw [if_pos (decide_eq_true hk), if_pos]
        simp [msgToRec, hk]
      · have hk' : decide (k < m.id) = false := by simpa using hk
        rw [if_neg (by simp [hk']), if_neg]
        simp [msgToRec, hk]

theorem transportStream_all_messages (events : List FetchEvent) (min_id : Option Nat)
    (hmsg : events.all isMessageEvent = true) :
    (transportStream events min_id).all isMessageEvent = true := by
  rw [List.all_eq_true] at hmsg ⊢
  intro e he
  exact hmsg e (List.mem_filter.mp he).1

theorem transportStream_none (events : List FetchEvent) :
    transportStream events none = events := by
  apply List.filter_eq_self.mpr
  intro e _
  cases e <;> rfl

theorem fetchLoop_inc_nocap (channel : String) (since_dt : Int) (k : Nat)
    (st : List FetchEvent) (out : List MsgRec)
    (hmsg : st.all isMessageEvent = true) :
    (fetchLoop channel since_dt 0 (some k) st out).items = out ++ datedRecords channel st := by
  induction st generalizing out with
  | nil => simp [fetchLoop, datedRecords]
  | cons e rest ih =>
    rw [List.all_cons, Bool.and_eq_true] at hmsg
    obtain ⟨hme, hrest⟩ := hmsg
    cases e with
    | floodWait s => simp [isMessageEvent] at hme
    | transportError => simp [isMessageEvent] at hme
    | message m =>
      cases hd : m.date with
      | none =>
        simp only [fetchLoop, hd]
        rw [ih _ hrest]
        simp [datedRecords, List.filterMap_cons, hd]
      | some d =>
        simp only [fetchLoop, hd]
        rw [if_neg (by simp), if_neg (by simp)]
        rw [ih _ hrest]
        simp [datedRecords, List.filterMap_cons, hd]

theorem fetchLoop_inc_cap (channel : String) (since_dt : Int) (limit k : Nat)
    (st : List FetchEvent) (out : List MsgRec)
    (hmsg : st.all isMessageEvent = true) (hlen : out.length < limit) :
    (fetchLoop channel since_dt limit (some k) st out).items =
      out ++ (datedRecords channel st).take (limit - out.length) := by
  induction st generalizing out with
  | nil => simp [fetchLoop, datedRecords]
  | cons e rest ih =>
    rw [List.all_cons, Bool.and_eq_true] at hmsg
    obtain ⟨hme, hrest⟩ := hmsg
    cases e with
    | floodWait s => simp [isMessageEvent] at hme
    | transportError => simp [isMessageEvent] at hme
    | message m =>
      cases hd : m.date with
      | none =>
        simp only [fetchLoop, hd]
        rw [ih _ hrest hlen]
        simp [datedRecords, List.filterMap_cons, hd]
      | some d =>
        simp only [fetchLoop, hd]
        rw [if_neg (by simp)]
        by_cases hcap : limit ≤ (out ++ [msgToRec channel m d]).length
        · rw [if_pos ⟨by omega, hcap⟩]
          have h1 : limit - out.length = 1 := by
            rw [List.length_append, List.length_singleton] at hcap
            omega
          simp [datedRecords, List.filterMap_cons, hd, h1]
        · rw [if_neg (fun hc => hcap hc.2)]
          have hlen' : (out ++ [msgToRec channel m d]).length < limit := by
            rw [List.length_append, List.length_singleton]
            rw [List.length_append, List.length_singleton] at hcap
            omega
          rw [ih _ hrest hlen']
          have h2 : limit - out.length = (limit - (out.length + 1)) + 1 := by omega
          simp only [datedRecords, List.filterMap_cons, hd, List.length_append,
            List.length_singleton, h2, List.take_succ_cons, List.append_assoc,
            List.singleton_append]

theorem fetchLoop_boot_nocap (channel : String) (since_dt : Int)
    (st : List FetchEvent) (out : List MsgRec)
    (hmsg : st.all isMessageEvent = true) :
    (fetchLoop channel since_dt 0 none st out).items =
      out ++ (datedRecords channel st).takeWhile (fun r => decide (since_dt ≤ r.date)) := by
  induction st generalizing out with
  | nil => simp [fetchLoop, datedRecords]
  | cons e rest ih =>
    rw [List.all_cons, Bool.and_eq_true] at hmsg
    obtain ⟨hme, hrest⟩ := hmsg
    cases e with
    | floodWait s => simp [isMessageEvent] at hme
    | transportError => simp [isMessageEvent] at hme
    | message m =>
      cases hd : m.date with
      | none =>
        simp only [fetchLoop, hd]
        rw [ih _ hrest]
        simp [datedRecords, List.filterMap_cons, hd]
      | some d =>
        simp only [fetchLoop, hd]
        by_cases hlt : d < since_dt
        · rw [if_pos (⟨by simp, hlt⟩ : _ ∧ _)]
          have hp : decide (since_dt ≤ (msgToRec channel m d).date) = false := by
            simp [msgToRec]
            omega
          simp [datedRecords, List.filterMap_cons, hd, List.takeWhile_cons, hp]
        · rw [if_neg (fun h => hlt h.2), if_neg (by simp)]
          rw [ih _ hrest]
          have hp : decide (since_dt ≤ (msgToRec channel m d).date) = true := by
            simp [msgToRec]
            omega
          simp [datedRecords, List.filterMap_cons, hd, List.takeWhile_cons, hp]

theorem fetchLoop_boot_cap (channel : String) (since_dt : Int) (limit : Nat)
    (st : List FetchEvent) (out : List MsgRec)
    (hmsg : st.all isMessageEvent = true) (hlen : out.length < limit) :
    (fetchLoop channel since_dt limit none st out).items =
      out ++ ((datedRecords channel st).takeWhile
        (fun r => decide (since_dt ≤ r.date))).take (limit - out.length) := by
  induction st generalizing out with
  | nil => simp [fetchLoop, datedRecords]
  | cons e rest ih =>
    rw [List.all_cons, Bool.and_eq_true] at hmsg
    obtain ⟨hme, hrest⟩ := hmsg
    cases e with
    | floodWait s => simp [isMessageEvent] at hme
    | transportError => simp [isMessageEvent] at hme
    | message m =>
      cases hd : m.date with
      | none =>
        simp only [fetchLoop, hd]
        rw [ih _ hrest hlen]
        simp [datedRecords, List.filterMap_cons, hd]
      | some d =>
        simp only [fetchLoop, hd]
        by_cases hlt : d < since_dt
        · rw [if_pos (⟨by simp, hlt⟩ : _ ∧ _)]
          have hp : decide (since_dt ≤ (msgToRec channel m d).date) = false := by
            simp [msgToRec]
            omega
          simp [datedRecords, List.filterMap_cons, hd, List.takeWhile_cons, hp]
        · rw [if_neg (fun h => hlt h.2)]
          have hp : decide (since_dt ≤ (msgToRec channel m d).date) = true := by
            simp [msgToRec]
            omega
          by_cases hcap : limit ≤ (out ++ [msgToRec channel m d]).length
          · rw [if_pos ⟨by omega, hcap⟩]
            have h1 : limit - out.length = 1 := by
              rw [List.length_append, List.length_singleton] at hcap
              omega
            simp [datedRecords, List.filterMap_cons, hd, List.takeWhile_cons, hp, h1]
          · rw [if_neg (fun hc => hcap hc.2)]
            have hlen' : (out ++ [msgToRec channel m d]).length < limit := by
              rw [List.length_append, List.length_singleton]
              rw [List.length_append, List.length_singleton] at hcap
              omega
            rw [ih _ hrest hlen']
            have h2 : limit - out.length = (limit - (out.length + 1)) + 1 := by omega
            simp only [datedRecords, List.filterMap_cons, hd, List.takeWhile_cons, hp,
              if_true, List.length_append, List.length_singleton, h2,
              List.take_succ_cons, List.append_assoc, List.singleton_append]

theorem fetch_items_incremental (ch : Channel) (since_dt : Int) (limit k : Nat)
    (hok : ch.entityOk = true) (hmsg : ch.events.all isMessageEvent = true) :
    (fetch_channel_messages ch since_dt limit (some k)).items =
      expectedIncremental ch.name k limit ch.events := by
  rw [fetch_channel_messages, if_pos hok]
  have hmsg' := transportStream_all_messages ch.events (some k) hmsg
  unfold expectedIncremental pyCap
  by_cases hl : limit = 0
  · subst hl
    rw [if_pos rfl, fetchLoop_inc_nocap _ _ _ _ _ hmsg', datedRecords_transportStream]
    simp
  · rw [if_neg hl,
      fetchLoop_inc_cap _ _ _ _ _ _ hmsg' (by simpa using Nat.pos_of_ne_zero hl),
      datedRecords_transportStream]
    simp

theorem fetch_items_bootstrap (ch : Channel) (since_dt : Int) (limit : Nat)
    (hok : ch.entityOk = true) (hmsg : ch.events.all isMessageEvent = true) :
    (fetch_channel_messages ch since_dt limit none).items =
      expectedBootstrap ch.name since_dt limit ch.events := by
  rw [fetch_channel_messages, if_pos hok, transportStream_none]
  unfold expectedBootstrap pyCap
  by_cases hl : limit = 0
  · subst hl
    rw [if_pos rfl, fetchLoop_boot_nocap _ _ _ _ hmsg]
    simp
  · rw [if_neg hl,
      fetchLoop_boot_cap _ _ _ _ _ hmsg (by simpa using Nat.pos_of_ne_zero hl)]
    simp

theorem pyGet_pySet_self {α : Type} (d : List (String × α)) (k : String) (v : α) :
    pyGet (pySet d k v) k = some v := by
  induction d with
  | nil => simp [pySet, pyGet]
  | cons p rest ih =>
    obtain ⟨k', v'⟩ := p
    by_cases h : k' = k
    · simp [pySet, h, pyGet]
    · simp [pySet, h, pyGet, ih]

theorem pyGet_pySet_ne {α : Type} (d : List (String × α)) (k k' : String) (v : α)
    (h : k ≠ k') : pyGet (pySet d k v) k' = pyGet d k' := by
  induction d with
  | nil => simp [pySet, pyGet, h]
  | cons p rest ih =>
    obtain ⟨k₀, v₀⟩ := p
    by_cases h₀ : k₀ = k
    · subst h₀
      simp [pySet, pyGet, h]
    · simp [pySet, h₀, pyGet, ih]

theorem pyGet_ne_nil {α : Type} {d : List (String × α)} {k : String} {v : α}
    (h : pyGet d k = some v) : d.isEmpty = false := by
  cases d with
  | nil => simp [pyGet] at h
  | cons p rest => rfl

theorem le_foldl_max (l : List Nat) (a : Nat) : a ≤ l.foldl Nat.max a := by
  induction l generalizing a with
  | nil => exact le_refl a
  | cons x xs ih =>
    calc a ≤ Nat.max a x := Nat.le_max_left a x
    _ ≤ xs.foldl Nat.max (Nat.max a x) := ih (Nat.max a x)

theorem mem_le_foldl_max (l : List Nat) (x : Nat) (hx : x ∈ l) (a : Nat) :
    x ≤ l.foldl Nat.max a := by
  induction l generalizing a with
  | nil => cases hx
  | cons y ys ih =>
    rcases List.mem_cons.mp hx with rfl | h
    · calc x ≤ Nat.max a x := Nat.le_max_right a x
      _ ≤ ys.foldl Nat.max (Nat.max a x) := le_foldl_max ys (Nat.max a x)
    · exact ih h (Nat.max a y)

theorem lt_maxId {msgs : List MsgRec} {k : Nat}
    (hids : ∀ r ∈ msgs, k < r.id) (hne : msgs.isEmpty = false) :
    k < maxId msgs := by
  cases msgs with
  | nil => simp at hne
  | cons r rest =>
    have h1 : k < r.id := hids r (List.mem_cons_self r rest)
    have h2 : r.id ≤ maxId (r :: rest) := by
      apply mem_le_foldl_max
      exact List.mem_map_of_mem MsgRec.id (List.mem_cons_self r rest)
    omega

theorem fetchLoop_stop_append (channel : String) (since_dt : Int) (limit : Nat)
    (min_id : Option Nat) (e : FetchEvent) (he : isMessageEvent e = false)
    (rest : List FetchEvent) (st : List FetchEvent) (out : List MsgRec) :
    (fetchLoop channel since_dt limit min_id (st ++ e :: rest) out).items =
      (fetchLoop channel since_dt limit min_id st out).items := by
  induction st generalizing out with
  | nil =>
    cases e with
    | message m => simp [isMessageEvent] at he
    | floodWait s => simp [fetchLoop]
    | transportError => simp [fetchLoop]
  | cons e' st ih =>
    cases e' with
    | floodWait s => rfl
    | transportError => rfl
    | message m =>
      cases hd : m.date with
      | none =>
        simp only [List.cons_append, fetchLoop, hd]
        exact ih out
      | some d =>
        simp only [List.cons_append, fetchLoop, hd]
        by_cases hsb : min_id = none ∧ d < since_dt
        · rw [if_pos hsb, if_pos hsb]
        · rw [if_neg hsb, if_neg hsb]
          by_cases hcap : limit ≠ 0 ∧ limit ≤ (out ++ [msgToRec channel m d]).length
          · rw [if_pos hcap, if_pos hcap]
          · rw [if_neg hcap, if_neg hcap]
            exact ih _

theorem transportStream_stop_append (events rest : List FetchEvent) (e : FetchEvent)
    (he : isMessageEvent e = false) (min_id : Option Nat) :
    transportStream (events ++ e :: rest) min_id =
      transportStream events min_id ++ e :: transportStream rest min_id := by
  unfold transportStream
  rw [List.filter_append, List.filter_cons]
  have : passesMinId min_id e = true := by
    cases e with
    | message m => simp [isMessageEvent] at he
    | floodWait s => rfl
    | transportError => rfl
  rw [if_pos this]

theorem fetch_items_before_stop (ch : Channel) (pre rest : List FetchEvent)
    (e : FetchEvent) (he : isMessageEvent e = false) (hev : ch.events = pre ++ e :: rest)
    (since_dt : Int) (limit : Nat) (min_id : Option Nat) :
    (fetch_channel_messages ch since_dt limit min_id).items =
      (fetch_channel_messages { ch with events := pre } since_dt limit min_id).items := by
  unfold fetch_channel_messages
  by_cases hok : ch.entityOk = true
  · simp only [hok, if_true, hev]
    rw [transportStream_stop_append _ _ _ he]
    exact fetchLoop_stop_append _ _ _ _ _ he _ _ _
  · simp only [Bool.not_eq_true] at hok
    simp [hok]

theorem collect_foldl_pyGet_untouched (cp : List (String × Nat)) (s : Int) (l : Nat)
    (name : String) (cs : List Channel) :
    ∀ (acc : List MsgRec × List (String × Nat)),
      name ∉ cs.map Channel.name →
      pyGet (List.foldl (channelStep cp s l) acc cs).2 name = pyGet acc.2 name := by
  induction cs with
  | nil => intro acc _; rfl
  | cons ch cs' ih =>
    intro acc hname
    rw [List.map_cons, List.mem_cons] at hname
    push_neg at hname
    obtain ⟨hne, hname'⟩ := hname
    rw [List.foldl_cons, ih _ hname']
    simp only [channelStep]
    by_cases hemp :
        ((fetch_channel_messages ch s l
          (if cp.isEmpty then none else pyGet cp ch.name)).items).isEmpty = true
    · rw [if_pos hemp]
    · rw [if_neg hemp]
      exact pyGet_pySet_ne _ _ _ _ (fun h => hne h.symm)

theorem collectChannels_cp_at (cs₁ : List Channel) (ch : Channel) (cs₂ : List Channel)
    (cp : List (String × Nat)) (s : Int) (l : Nat) (k : Nat)
    (hk : pyGet cp ch.name = some k)
    (h₂ : ch.name ∉ cs₂.map Channel.name)
    (hne : ((fetch_channel_messages ch s l (some k)).items).isEmpty = false) :
    pyGet (collectChannels (cs₁ ++ ch :: cs₂) cp s l).2 ch.name =
      some (maxId (fetch_channel_messages ch s l (some k)).items) := by
  unfold collectChannels
  rw [List.foldl_append, List.foldl_cons,
    collect_foldl_pyGet_untouched cp s l ch.name cs₂ _ h₂]
  have hcpne : cp.isEmpty = false := pyGet_ne_nil hk
  simp only [channelStep, hcpne, Bool.false_eq_true, if_false, hk, hne]
  exact pyGet_pySet_self _ _ _

theorem channelStep_cp_mono (cp : List (String × Nat)) (s : Int) (l : Nat)
    (acc : List MsgRec × List (String × Nat)) (ch : Channel)
    (hinv : ∀ name v, pyGet cp name = some v →
      ∃ w, pyGet acc.2 name = some w ∧ v ≤ w) :
    ∀ name v, pyGet cp name = some v →
      ∃ w, pyGet (channelStep cp s l acc ch).2 name = some w ∧ v ≤ w := by
  intro name v hv
  simp only [channelStep]
  by_cases hemp :
      ((fetch_channel_messages ch s l
        (if cp.isEmpty then none else pyGet cp ch.name)).items).isEmpty = true
  · rw [if_pos hemp]
    exact hinv name v hv
  · rw [if_neg hemp]
    by_cases hname : ch.name = name
    · subst hname
      have hcpne : cp.isEmpty = false := pyGet_ne_nil hv
      rw [hcpne] at hemp ⊢
      simp only [Bool.false_eq_true, if_false, hv] at hemp ⊢
      refine ⟨maxId (fetch_channel_messages ch s l (some v)).items,
        pyGet_pySet_self _ _ _, ?_⟩
      have hlt : v < maxId (fetch_channel_messages ch s l (some v)).items := by
        apply lt_maxId
        · intro r hr
          exact fetch_incremental_ids ch s l v r hr
        · simpa using hemp
      omega
    · rw [pyGet_pySet_ne _ _ _ _ hname]
      exact hinv name v hv

theorem collectChannels_cp_mono (cs : List Channel) (cp : List (String × Nat))
    (s : Int) (l : Nat) :
    ∀ name v, pyGet cp name = some v →
      ∃ w, pyGet (collectChannels cs cp s l).2 name = some w ∧ v ≤ w := by
  unfold collectChannels
  have main : ∀ (cs' : List Channel) (acc : List MsgRec × List (String × Nat)),
      (∀ name v, pyGet cp name = some v → ∃ w, pyGet acc.2 name = some w ∧ v ≤ w) →
      ∀ name v, pyGet cp name = some v →
        ∃ w, pyGet (List.foldl (channelStep cp s l) acc cs').2 name = some w ∧ v ≤ w := by
    intro cs'
    induction cs' with
    | nil => intro acc hinv; exact hinv
    | cons ch cs'' ih =>
      intro acc hinv
      rw [List.foldl_cons]
      exact ih _ (channelStep_cp_mono cp s l acc ch hinv)
  exact main cs ([], cp) (fun name v hv => ⟨v, hv, le_refl v⟩)

/-- C1: for a source with checkpoint `k`, incremental fetch yields only items
with id above `k` (first conjunct, for every transport stream), ignores the
time horizon entirely (second conjunct: the result does not depend on
`since_dt`), is cut only by the per-source cap (third conjunct: on an
error-free stream the result is exactly the dated records above the cursor,
truncated only by the cap rule), and `collect_all` then advances the source's
checkpoint to the maximum id of the returned items (fourth conjunct). -/
theorem claim_C1 :
    (∀ (ch : Channel) (since_dt : Int) (limit k : Nat) (r : MsgRec),
        r ∈ (fetch_channel_messages ch since_dt limit (some k)).items → k < r.id)
    ∧ (∀ (ch : Channel) (s₁ s₂ : Int) (limit k : Nat),
        fetch_channel_messages ch s₁ limit (some k) =
          fetch_channel_messages ch s₂ limit (some k))
    ∧ (∀ (ch : Channel) (since_dt : Int) (limit k : Nat),
        ch.entityOk = true → ch.events.all isMessageEvent = true →
        (fetch_channel_messages ch since_dt limit (some k)).items =
          expectedIncremental ch.name k limit ch.events)
    ∧ (∀ (cs₁ : List Channel) (ch : Channel) (cs₂ : List Channel)
        (cpFile : Option CpFileContent) (cp : List (String × Nat)) (now : Int)
        (run_ts : String) (since_hours per_channel_limit : Nat) (out : RunOutcome)
        (k : Nat),
        load_cp cpFile = Except.ok cp →
        pyGet cp ch.name = some k →
        ch.name ∉ cs₂.map Channel.name →
        collect_all (cs₁ ++ ch :: cs₂) cpFile now run_ts since_hours per_channel_limit =
          Except.ok out →
        ((fetch_channel_messages ch (now - (since_hours : Int) * 3600) per_channel_limit
            (some k)).items).isEmpty = false →
        pyGet out.new_cp ch.name =
          some (maxId (fetch_channel_messages ch (now - (since_hours : Int) * 3600)
            per_channel_limit (some k)).items)) := by
  refine ⟨fun ch s limit k r hr => fetch_incremental_ids ch s limit k r hr, ?_, ?_, ?_⟩
  · intro ch s₁ s₂ limit k
    unfold fetch_channel_messages
    by_cases hok : ch.entityOk = true
    · rw [if_pos hok, if_pos hok]
      exact fetchLoop_since_eq ch.name s₁ s₂ limit k _ []
    · rw [if_neg hok, if_neg hok]
  · exact fun ch s limit k hok hmsg => fetch_items_incremental ch s limit k hok hmsg
  · intro cs₁ ch cs₂ cpFile cp now run_ts sh l out k hload hk h₂ hout hne
    rw [collect_all_eq_ok _ _ _ _ _ _ _ hload] at hout
    obtain rfl : _ = out := Except.ok.inj hout
    exact collectChannels_cp_at cs₁ ch cs₂ cp _ l k hk h₂ hne

/-- C2: bootstrap fetch (no checkpoint) on an error-free stream returns
exactly the dated records of the newest-first stream up to (not including)
the first one strictly older than `since_dt`, truncated by the cap rule;
records with no timestamp are dropped by `datedRecords` before the horizon
and cap are applied, so they are neither emitted nor counted. -/
theorem claim_C2 (ch : Channel) (since_dt : Int) (limit : Nat)
    (hok : ch.entityOk = true) (hmsg : ch.events.all isMessageEvent = true) :
    (fetch_channel_messages ch since_dt limit none).items =
      expectedBootstrap ch.name since_dt limit ch.events :=
  fetch_items_bootstrap ch since_dt limit hok hmsg

/-- C3: a checkpoint only ever increases across a run — every source with a
checkpoint in the loaded mapping has a checkpoint at least as large in the
saved mapping (first conjunct); and a (single-source) run whose fetch
returns no items saves the loaded mapping unchanged (second conjunct).
Chaining the first conjunct over successive runs gives monotonicity over
any run sequence, since each run loads what the previous one saved. -/
theorem claim_C3 :
    (∀ (channels : List Channel) (cpFile : Option CpFileContent)
        (cp : List (String × Nat)) (now : Int) (run_ts : String)
        (since_hours per_channel_limit : Nat) (out : RunOutcome),
        load_cp cpFile = Except.ok cp →
        collect_all channels cpFile now run_ts since_hours per_channel_limit =
          Except.ok out →
        ∀ name v, pyGet cp name = some v →
          ∃ w, pyGet out.new_cp name = some w ∧ v ≤ w)
    ∧ (∀ (ch : Channel) (cpFile : Option CpFileContent) (cp : List (String × Nat))
        (now : Int) (run_ts : String) (since_hours per_channel_limit : Nat)
        (out : RunOutcome),
        load_cp cpFile = Except.ok cp →
        collect_all [ch] cpFile now run_ts since_hours per_channel_limit =
          Except.ok out →
        (fetch_channel_messages ch (now - (since_hours : Int) * 3600) per_channel_limit
          (if cp.isEmpty then none else pyGet cp ch.name)).items = [] →
        out.new_cp = cp) := by
  constructor
  · intro channels cpFile cp now run_ts sh l out hload hout name v hv
    rw [collect_all_eq_ok _ _ _ _ _ _ _ hload] at hout
    obtain rfl : _ = out := Except.ok.inj hout
    exact collectChannels_cp_mono channels cp _ l name v hv
  · intro ch cpFile cp now run_ts sh l out hload hout hempty
    rw [collect_all_eq_ok _ _ _ _ _ _ _ hload] at hout
    obtain rfl : _ = out := Except.ok.inj hout
    show (collectChannels [ch] cp _ l).2 = cp
    unfold collectChannels
    rw [List.foldl_cons, List.foldl_nil]
    simp only [channelStep, hempty]
    rfl

/-- C7: a failed per-source entity resolution yields the empty sequence for
that source (first conjunct) and the run simply continues as if the source
contributed nothing (second conjunct); a rate-limit signal makes the fetch
sleep the signalled seconds plus a one-second margin and return exactly the
items collected before the signal, with no retry (third and fourth
conjuncts); any other transport error likewise returns the items collected
before it (fifth and sixth conjuncts). -/
theorem claim_C7 :
    (∀ (ch : Channel) (since_dt : Int) (limit : Nat) (min_id : Option Nat),
        ch.entityOk = false →
        fetch_channel_messages ch since_dt limit min_id =
          { items := [], sleepSeconds := 0 })
    ∧ (∀ (bad : Channel) (cs : List Channel) (cp : List (String × Nat))
        (since_dt : Int) (limit : Nat),
        bad.entityOk = false →
        collectChannels (bad :: cs) cp since_dt limit =
          collectChannels cs cp since_dt limit)
    ∧ (∀ (channel : String) (since_dt : Int) (limit : Nat) (min_id : Option Nat)
        (s : Nat) (rest : List FetchEvent) (out : List MsgRec),
        fetchLoop channel since_dt limit min_id (FetchEvent.floodWait s :: rest) out =
          { items := out, sleepSeconds := s + 1 })
    ∧ (∀ (ch : Channel) (pre : List FetchEvent) (s : Nat) (rest : List FetchEvent)
        (since_dt : Int) (limit : Nat) (min_id : Option Nat),
        ch.events = pre ++ FetchEvent.floodWait s :: rest →
        (fetch_channel_messages ch since_dt limit min_id).items =
          (fetch_channel_messages { ch with events := pre } since_dt limit min_id).items)
    ∧ (∀ (channel : String) (since_dt : Int) (limit : Nat) (min_id : Option Nat)
        (rest : List FetchEvent) (out : List MsgRec),
        fetchLoop channel since_dt limit min_id (FetchEvent.transportError :: rest) out =
          { items := out, sleepSeconds := 0 })
    ∧ (∀ (ch : Channel) (pre rest : List FetchEvent) (since_dt : Int) (limit : Nat)
        (min_id : Option Nat),
        ch.events = pre ++ FetchEvent.transportError :: rest →
        (fetch_channel_messages ch since_dt limit min_id).items =
          (fetch_channel_messages { ch with events := pre } since_dt limit min_id).items) := by
  refine ⟨?_, ?_, fun _ _ _ _ _ _ _ => rfl, ?_, fun _ _ _ _ _ _ => rfl, ?_⟩
  · intro ch since_dt limit min_id hbad
    unfold fetch_channel_messages
    rw [if_neg (by rw [hbad]; exact Bool.false_ne_true)]
  · intro bad cs cp since_dt limit hbad
    unfold collectChannels
    rw [List.foldl_cons]
    congr 1
    simp only [channelStep]
    rw [fetch_channel_messages, if_neg (by rw [hbad]; exact Bool.false_ne_true)]
    simp
  · intro ch pre s rest since_dt limit min_id hev
    exact fetch_items_before_stop ch pre rest (FetchEvent.floodWait s) rfl hev
      since_dt limit min_id
  · intro ch pre rest since_dt limit min_id hev
    exact fetch_items_before_stop ch pre rest FetchEvent.transportError rfl hev
      since_dt limit min_id

/-- C10: a per-source cap of 0 is falsy in `if limit and len(out) >= limit`,
so the cap check is disabled: a cap-0 incremental fetch returns every dated
record above the cursor and a cap-0 bootstrap fetch returns every dated
record within the horizon, with no truncation at zero items. -/
theorem claim_C10 :
    (∀ (ch : Channel) (since_dt : Int) (k : Nat),
        ch.entityOk = true → ch.events.all isMessageEvent = true →
        (fetch_channel_messages ch since_dt 0 (some k)).items =
          (datedRecords ch.name ch.events).filter (fun r => decide (k < r.id)))
    ∧ (∀ (ch : Channel) (since_dt : Int),
        ch.entityOk = true → ch.events.all isMessageEvent = true →
        (fetch_channel_messages ch since_dt 0 none).items =
          (datedRecords ch.name ch.events).takeWhile
            (fun r => decide (since_dt ≤ r.date))) := by
  constructor
  · intro ch since_dt k hok hmsg
    rw [fetch_items_incremental ch since_dt 0 k hok hmsg]
    simp [expectedIncremental, pyCap]
  · intro ch since_dt hok hmsg
    rw [fetch_items_bootstrap ch since_dt 0 hok hmsg]
    simp [expectedBootstrap, pyCap]

/-- C4: in every successful run the write trace is exactly the run-artifact
write, then the latest-view write, then the checkpoint write — so both
snapshot writes complete before the checkpoint mapping is written (every
snapshot write sits at a strictly smaller trace position than the checkpoint
write). -/
theorem claim_C4 (channels : List Channel) (cpFile : Option CpFileContent)
    (cp : List (String × Nat)) (now : Int) (run_ts : String)
    (since_hours per_channel_limit : Nat) (out : RunOutcome)
    (hload : load_cp cpFile = Except.ok cp)
    (hout : collect_all channels cpFile now run_ts since_hours per_channel_limit =
      Except.ok out) :
    (∀ (i j : Nat) (hi : i < out.writes.length) (hj : j < out.writes.length),
      isSnapshotWrite (out.writes.get ⟨i, hi⟩) = true →
      isCheckpointWrite (out.writes.get ⟨j, hj⟩) = true → i < j)
    ∧ out.writes.map isSnapshotWrite = [true, true, false]
    ∧ out.writes.map isCheckpointWrite = [false, false, true] := by
  rw [collect_all_eq_ok _ _ _ _ _ _ _ hload] at hout
  obtain rfl : _ = out := Except.ok.inj hout
  refine ⟨?_, rfl, rfl⟩
  intro i j hi hj hsi hcj
  have hi3 : i < 3 := hi
  have hj3 : j < 3 := hj
  interval_cases i <;> interval_cases j <;>
    simp_all [runOutcomeOf, isSnapshotWrite, isCheckpointWrite]

/-- C8: with `H` in the validated range, `GET /messages` returns exactly the
stored items with `timestamp >= now - H` hours (and their count), and when no
latest snapshot exists it returns the empty list with count 0 instead of an
error. -/
theorem claim_C8 (now : Int) (H : Nat) (data : List MsgRec)
    (h1 : 1 ≤ H) (h2 : H ≤ 168) :
    (get_messages (some data) now H =
      Except.ok { source := some "latest.json",
                  messages := data.filter (fun m => decide (now - (H : Int) * 3600 ≤ m.date)),
                  count := (data.filter (fun m => decide (now - (H : Int) * 3600 ≤ m.date))).length,
                  note := none })
    ∧ (∀ m : MsgRec,
        m ∈ data.filter (fun m => decide (now - (H : Int) * 3600 ≤ m.date)) ↔
          m ∈ data ∧ now - (H : Int) * 3600 ≤ m.date)
    ∧ (get_messages none now H =
        Except.ok { source := none, messages := [], count := 0,
                    note := some "no data collected" }) := by
  have hcond : ¬(H < 1 ∨ 168 < H) := by omega
  refine ⟨?_, ?_, ?_⟩
  · rw [get_messages, if_neg hcond]
  · intro m
    rw [List.mem_filter]
    simp
  · rw [get_messages, if_neg hcond]

theorem natDigits_eq_toDigitsCore (fuel : Nat) :
    ∀ (n : Nat) (ds : List Char), n < fuel →
      Nat.toDigitsCore 10 fuel n ds = natDigits n ++ ds := by
  induction fuel with
  | zero => intro n ds h; omega
  | succ fuel ih =>
    intro n ds h
    simp only [Nat.toDigitsCore]
    by_cases h10 : n / 10 = 0
    · rw [if_pos h10, natDigits, dif_pos h10, List.singleton_append]
    · rw [if_neg h10, ih (n / 10) _ (by omega)]
      conv_rhs => rw [natDigits]
      rw [dif_neg h10, List.append_assoc, List.singleton_append]

theorem repr_eq_natDigits (n : Nat) : Nat.repr n = (natDigits n).asString := by
  rw [Nat.repr, Nat.toDigits,
    natDigits_eq_toDigitsCore (n + 1) n [] (Nat.lt_succ_self n), List.append_nil]

theorem digitVal_digitChar (k : Nat) (hk : k < 10) : digitVal (Nat.digitChar k) = k := by
  interval_cases k <;> decide

theorem digitChar_ne_colon (k : Nat) (hk : k < 10) : Nat.digitChar k ≠ ':' := by
  interval_cases k <;> decide

theorem natDigits_ne_colon (n : Nat) : ∀ c ∈ natDigits n, c ≠ ':' := by
  induction n using Nat.strong_induction_on with
  | _ n ih =>
    rw [natDigits]
    by_cases h : n / 10 = 0
    · rw [dif_pos h]
      intro c hc
      rw [List.mem_singleton] at hc
      subst hc
      exact digitChar_ne_colon _ (Nat.mod_lt _ (by decide))
    · rw [dif_neg h]
      intro c hc
      rcases List.mem_append.mp hc with h1 | h2
      · exact ih (n / 10) (by omega) c h1
      · rw [List.mem_singleton] at h2
        subst h2
        exact digitChar_ne_colon _ (Nat.mod_lt _ (by decide))

theorem valOfDigits_append_digit (ds : List Char) (c : Char) :
    valOfDigits (ds ++ [c]) = 10 * valOfDigits ds + digitVal c := by
  unfold valOfDigits
  rw [List.foldl_append]
  rfl

theorem valOfDigits_natDigits (n : Nat) : valOfDigits (natDigits n) = n := by
  induction n using Nat.strong_induction_on with
  | _ n ih =>
    rw [natDigits]
    by_cases h : n / 10 = 0
    · rw [dif_pos h]
      have hval : valOfDigits [Nat.digitChar (n % 10)] = digitVal (Nat.digitChar (n % 10)) := by
        simp [valOfDigits]
      rw [hval, digitVal_digitChar _ (by omega)]
      omega
    · rw [dif_neg h, valOfDigits_append_digit, ih (n / 10) (by omega),
        digitVal_digitChar _ (by omega)]
      omega

theorem natDigits_inj {m n : Nat} (h : natDigits m = natDigits n) : m = n := by
  have hv := congrArg valOfDigits h
  rwa [valOfDigits_natDigits, valOfDigits_natDigits] at hv

theorem data_asString (l : List Char) : (l.asString).data = l := rfl

theorem nat_repr_inj {m n : Nat} (h : Nat.repr m = Nat.repr n) : m = n := by
  apply natDigits_inj
  have h2 : (natDigits m).asString = (natDigits n).asString := by
    rw [← repr_eq_natDigits, ← repr_eq_natDigits]
    exact h
  have h3 := congrArg String.data h2
  rwa [data_asString, data_asString] at h3

theorem append_colon_inj (u : List Char) : ∀ (v p q : List Char),
    (∀ c ∈ p, c ≠ ':') → (∀ c ∈ q, c ≠ ':') →
    u ++ ':' :: p = v ++ ':' :: q → u = v ∧ p = q := by
  induction u with
  | nil =>
    intro v p q hp hq h
    cases v with
    | nil =>
      simp only [List.nil_append, List.cons_eq_cons] at h
      exact ⟨rfl, h.2⟩
    | cons c v' =>
      simp only [List.nil_append, List.cons_append, List.cons_eq_cons] at h
      exfalso
      apply hp ':' _ rfl
      rw [h.2]
      exact List.mem_append.mpr (Or.inr (List.mem_cons_self _ _))
  | cons c u' ih =>
    intro v p q hp hq h
    cases v with
    | nil =>
      simp only [List.nil_append, List.cons_append, List.cons_eq_cons] at h
      exfalso
      apply hq ':' _ rfl
      rw [← h.2]
      exact List.mem_append.mpr (Or.inr (List.mem_cons_self _ _))
    | cons c' v' =>
      simp only [List.cons_append, List.cons_eq_cons] at h
      obtain ⟨h1, h2⟩ := ih v' p q hp hq h.2
      exact ⟨by rw [h.1, h1], h2⟩

theorem dedupKey_inj {r₁ r₂ : MsgRec} (h : dedupKey r₁ = dedupKey r₂) :
    r₁.channel = r₂.channel ∧ r₁.id = r₂.id := by
  unfold dedupKey at h
  have hd := congrArg String.data h
  simp only [String.data_append] at hd
  rw [repr_eq_natDigits, repr_eq_natDigits, data_asString, data_asString] at hd
  have hd' : r₁.channel.data ++ ':' :: natDigits r₁.id =
      r₂.channel.data ++ ':' :: natDigits r₂.id := by
    simpa [List.append_assoc] using hd
  obtain ⟨hch, hdig⟩ := append_colon_inj _ _ _ _
    (natDigits_ne_colon r₁.id) (natDigits_ne_colon r₂.id) hd'
  refine ⟨?_, natDigits_inj hdig⟩
  have hc := congrArg List.asString hch
  cases hch₁ : r₁.channel with
  | mk d₁ =>
    cases hch₂ : r₂.channel with
    | mk d₂ =>
      rw [hch₁, hch₂] at hch
      exact congrArg String.mk hch

theorem pySet_mem {α : Type} {d : List (String × α)} {k : String} {v : α}
    {p : String × α} (hp : p ∈ pySet d k v) : p ∈ d ∨ p = (k, v) := by
  induction d with
  | nil => simpa [pySet] using hp
  | cons q rest ih =>
    obtain ⟨k₀, v₀⟩ := q
    by_cases h : k₀ = k
    · simp only [pySet, if_pos h, List.mem_cons] at hp
      rcases hp with rfl | hp'
      · exact Or.inr rfl
      · exact Or.inl (List.mem_cons_of_mem _ hp')
    · simp only [pySet, if_neg h, List.mem_cons] at hp
      rcases hp with rfl | hp'
      · exact Or.inl (List.mem_cons_self _ _)
      · rcases ih hp' with h1 | h1
        · exact Or.inl (List.mem_cons_of_mem _ h1)
        · exact Or.inr h1

theorem pySet_keys_pairwise {α : Type} {d : List (String × α)} (k : String) (v : α)
    (h : d.Pairwise (fun a b => a.1 ≠ b.1)) :
    (pySet d k v).Pairwise (fun a b => a.1 ≠ b.1) := by
  induction d with
  | nil => simp [pySet]
  | cons q rest ih =>
    obtain ⟨k₀, v₀⟩ := q
    rw [List.pairwise_cons] at h
    obtain ⟨h1, h2⟩ := h
    by_cases hk : k₀ = k
    · subst hk
      simp only [pySet, if_pos rfl]
      exact List.pairwise_cons.mpr ⟨fun b hb => h1 b hb, h2⟩
    · simp only [pySet, if_neg hk]
      refine List.pairwise_cons.mpr ⟨?_, ih h2⟩
      intro b hb
      rcases pySet_mem hb with hmem | heq
      · exact h1 b hmem
      · rw [heq]
        exact hk

theorem dedupeFold_key_inv (rs : List MsgRec) :
    ∀ (d : List (String × MsgRec)), (∀ p ∈ d, p.1 = dedupKey p.2) →
      ∀ p ∈ rs.foldl (fun d r => pySet d (dedupKey r) r) d, p.1 = dedupKey p.2 := by
  induction rs with
  | nil => exact fun d h => h
  | cons r rest ih =>
    intro d hd
    rw [List.foldl_cons]
    refine ih _ ?_
    intro q hq
    rcases pySet_mem hq with hmem | heq
    · exact hd q hmem
    · rw [heq]

theorem dedupeFold_pairwise (rs : List MsgRec) :
    ∀ (d : List (String × MsgRec)), d.Pairwise (fun a b => a.1 ≠ b.1) →
      (rs.foldl (fun d r => pySet d (dedupKey r) r) d).Pairwise (fun a b => a.1 ≠ b.1) := by
  induction rs with
  | nil => exact fun d h => h
  | cons r rest ih =>
    intro d hd
    rw [List.foldl_cons]
    exact ih _ (pySet_keys_pairwise _ _ hd)

theorem pyGet_dedupeFold (rs : List MsgRec) :
    ∀ (d : List (String × MsgRec)) (k : String),
      pyGet (rs.foldl (fun d r => pySet d (dedupKey r) r) d) k =
        (rs.reverse.find? (fun r => dedupKey r == k)).or (pyGet d k) := by
  induction rs with
  | nil => intro d k; rfl
  | cons r rest ih =>
    intro d k
    rw [List.foldl_cons, ih, List.reverse_cons, List.find?_append]
    cases hf : rest.reverse.find? (fun r => dedupKey r == k) with
    | some r' => rfl
    | none =>
      show pyGet (pySet d (dedupKey r) r) k = (List.find? (fun r => dedupKey r == k) [r]).or (pyGet d k)
      by_cases hk : dedupKey r = k
      · subst hk
        rw [pyGet_pySet_self]
        simp [List.find?]
      · rw [pyGet_pySet_ne _ _ _ _ hk]
        have : (dedupKey r == k) = false := beq_eq_false_iff_ne.mpr hk
        simp [List.find?, this]

theorem pyGet_mem {α : Type} {d : List (String × α)} :
    ∀ {k : String} {v : α}, pyGet d k = some v → (k, v) ∈ d := by
  induction d with
  | nil => intro k v h; simp [pyGet] at h
  | cons q rest ih =>
    intro k v h
    obtain ⟨k₀, v₀⟩ := q
    by_cases hk : k₀ = k
    · subst hk
      simp only [pyGet, if_pos rfl] at h
      obtain rfl : v₀ = v := Option.some.inj h
      exact List.mem_cons_self _ _
    · simp only [pyGet, if_neg hk] at h
      exact List.mem_cons_of_mem _ (ih h)

theorem pyGet_of_mem_distinct {d : List (String × MsgRec)}
    (hkeys : d.Pairwise (fun a b => a.1 ≠ b.1)) :
    ∀ {p : String × MsgRec}, p ∈ d → pyGet d p.1 = some p.2 := by
  induction d with
  | nil => intro p hp; cases hp
  | cons q rest ih =>
    rw [List.pairwise_cons] at hkeys
    obtain ⟨hq, hrest⟩ := hkeys
    intro p hp
    rcases List.mem_cons.mp hp with rfl | hp'
    · obtain ⟨k₀, v₀⟩ := p
      simp [pyGet]
    · have hne : q.1 ≠ p.1 := hq p hp'
      obtain ⟨k₀, v₀⟩ := q
      simp only [pyGet, if_neg hne]
      exact ih hrest hp'

theorem dedupe_pairwise_pairs (rs : List MsgRec) :
    (dedupe rs).Pairwise (fun a b => ¬(a.channel = b.channel ∧ a.id = b.id)) := by
  unfold dedupe
  rw [List.pairwise_map]
  have hinv := dedupeFold_key_inv rs [] (by simp)
  have hpw := dedupeFold_pairwise rs [] (by simp)
  refine List.Pairwise.imp_of_mem ?_ hpw
  intro p q hp hq hne hcontra
  apply hne
  rw [hinv p hp, hinv q hq]
  unfold dedupKey
  rw [hcontra.1, hcontra.2]

/-- C5: the persisted snapshot of every successful run has no two items with
the same `(channel, id)` pair (the string key `channel ++ ":" ++ str id` is
injective because decimal digits contain no colon); the value kept for a key
is the last record with that key in stream order (last-write-wins); and every
fetched record is represented in the deduplicated set by the record kept for
its key, so the merge never fails on duplicates. -/
theorem claim_C5 :
    (∀ (channels : List Channel) (cpFile : Option CpFileContent)
        (cp : List (String × Nat)) (now : Int) (run_ts : String)
        (since_hours per_channel_limit : Nat) (out : RunOutcome),
        load_cp cpFile = Except.ok cp →
        collect_all channels cpFile now run_ts since_hours per_channel_limit =
          Except.ok out →
        out.final.Pairwise (fun a b => ¬(a.channel = b.channel ∧ a.id = b.id)))
    ∧ (∀ (rs : List MsgRec) (r : MsgRec), r ∈ dedupe rs →
        rs.reverse.find? (fun x => dedupKey x == dedupKey r) = some r)
    ∧ (∀ (rs : List MsgRec) (r : MsgRec), r ∈ rs →
        ∃ r', r' ∈ dedupe rs ∧ dedupKey r' = dedupKey r) := by
  refine ⟨?_, ?_, ?_⟩
  · intro channels cpFile cp now run_ts sh l out hload hout
    rw [collect_all_eq_ok _ _ _ _ _ _ _ hload] at hout
    obtain rfl : _ = out := Except.ok.inj hout
    exact dedupe_pairwise_pairs _
  · intro rs r hr
    unfold dedupe at hr
    rw [List.mem_map] at hr
    obtain ⟨p, hpmem, hpsnd⟩ := hr
    have hkey : p.1 = dedupKey p.2 := dedupeFold_key_inv rs [] (by simp) p hpmem
    have hpw := dedupeFold_pairwise rs [] (by simp)
    have hget := pyGet_of_mem_distinct hpw hpmem
    rw [pyGet_dedupeFold] at hget
    rw [show pyGet ([] : List (String × MsgRec)) p.1 = none from rfl,
      Option.or_none, hkey] at hget
    rw [← hpsnd]
    exact hget
  · intro rs r hr
    have hsome : (rs.reverse.find? (fun x => dedupKey x == dedupKey r)).isSome := by
      rw [List.find?_isSome]
      exact ⟨r, List.mem_reverse.mpr hr, by simp⟩
    obtain ⟨r', hr'⟩ := Option.isSome_iff_exists.mp hsome
    have hkey : dedupKey r' = dedupKey r := by
      have hbeq := List.find?_some hr'
      simpa using hbeq
    refine ⟨r', ?_, hkey⟩
    have hget : pyGet (rs.foldl (fun d x => pySet d (dedupKey x) x) []) (dedupKey r) =
        some r' := by
      rw [pyGet_dedupeFold, hr']
      rfl
    have hmem := pyGet_mem hget
    unfold dedupe
    rw [List.mem_map]
    exact ⟨(dedupKey r, r'), hmem, rfl⟩

/-- Witness for C1 at the spec example: checkpoint 100 and transport ids
[105, 101, 99, 98] give returned ids [105, 101] (exactly the set 101, 105),
the time horizon is ignored, the result matches the incremental formula, and
the run's new checkpoint is 105. -/
theorem claim_C1_witness :
    ((fetch_channel_messages exChannelInc 9999 500 (some 100)).items.map MsgRec.id =
      [105, 101])
    ∧ fetch_channel_messages exChannelInc 9999 500 (some 100) =
        fetch_channel_messages exChannelInc 0 500 (some 100)
    ∧ (fetch_channel_messages exChannelInc 9999 500 (some 100)).items =
        expectedIncremental "WhaleFollower" 100 500 exStreamInc
    ∧ pyGet (runOutcomeOf [exChannelInc] [("WhaleFollower", 100)] 0 "run" 24 500).new_cp
        "WhaleFollower" = some 105 := by
  refine ⟨by decide, claim_C1.2.1 exChannelInc 9999 0 500 100,
    claim_C1.2.2.1 exChannelInc 9999 500 100 rfl (by decide), ?_⟩
  have hout := collect_all_eq_ok ([] ++ exChannelInc :: [])
    (some (CpFileContent.valid [("WhaleFollower", 100)])) 0 "run" 24 500
    [("WhaleFollower", 100)] rfl
  have h := claim_C1.2.2.2 [] exChannelInc []
    (some (CpFileContent.valid [("WhaleFollower", 100)])) [("WhaleFollower", 100)]
    0 "run" 24 500 _ 100 rfl (by decide) (by simp) hout (by decide)
  have h' : pyGet
      (runOutcomeOf [exChannelInc] [("WhaleFollower", 100)] 0 "run" 24 500).new_cp
      "WhaleFollower" = some (maxId (fetch_channel_messages exChannelInc
        (0 - (24 : Int) * 3600) 500 (some 100)).items) := h
  rw [h']
  decide

/-- Witness for C2 at the spec example (`T = 0`, `sinceHours = 24`): a
dateless message is skipped and exactly the two items newer than `T-24h`
(ids 3 and 2) are returned. -/
theorem claim_C2_witness :
    (fetch_channel_messages exChannelBoot (-86400) 500 none).items =
      expectedBootstrap "cryptoquant_kr" (-86400) 500 exStreamBoot
    ∧ (fetch_channel_messages exChannelBoot (-86400) 500 none).items.map MsgRec.id =
        [3, 2] :=
  ⟨claim_C2 exChannelBoot (-86400) 500 rfl (by decide), by decide⟩

/-- Witness for C3: a run from checkpoint 100 saves checkpoint 105 ≥ 100, and
a run whose only source fetches nothing saves the loaded mapping
unchanged. -/
theorem claim_C3_witness :
    (pyGet (runOutcomeOf [exChannelInc] [("WhaleFollower", 100)] 0 "run" 24 500).new_cp
        "WhaleFollower" = some 105 ∧ (100 : Nat) ≤ 105)
    ∧ (runOutcomeOf [exChannelBad] [("emperorcoin", 7)] 0 "run" 24 500).new_cp =
        [("emperorcoin", 7)] := by
  constructor
  · have hout := collect_all_eq_ok [exChannelInc]
      (some (CpFileContent.valid [("WhaleFollower", 100)])) 0 "run" 24 500
      [("WhaleFollower", 100)] rfl
    obtain ⟨w, hw, hle⟩ := claim_C3.1 [exChannelInc]
      (some (CpFileContent.valid [("WhaleFollower", 100)])) [("WhaleFollower", 100)]
      0 "run" 24 500 _ rfl hout "WhaleFollower" 100 (by decide)
    have hv : pyGet
        (runOutcomeOf [exChannelInc] [("WhaleFollower", 100)] 0 "run" 24 500).new_cp
        "WhaleFollower" = some 105 := by decide
    rw [hv] at hw
    obtain rfl : (105 : Nat) = w := Option.some.inj hw
    exact ⟨hv, hle⟩
  · have hout := collect_all_eq_ok [exChannelBad]
      (some (CpFileContent.valid [("emperorcoin", 7)])) 0 "run" 24 500
      [("emperorcoin", 7)] rfl
    exact claim_C3.2 exChannelBad (some (CpFileContent.valid [("emperorcoin", 7)]))
      [("emperorcoin", 7)] 0 "run" 24 500 _ rfl hout (by decide)

/-- Witness for C4: on a concrete run the write trace maps show two snapshot
writes followed by the single checkpoint write. -/
theorem claim_C4_witness :
    (runOutcomeOf [] [] 0 "run" 24 500).writes.map isSnapshotWrite = [true, true, false]
    ∧ (runOutcomeOf [] [] 0 "run" 24 500).writes.map isCheckpointWrite =
        [false, false, true] := by
  have h := claim_C4 [] (some (CpFileContent.valid [])) [] 0 "run" 24 500 _ rfl
    (collect_all_eq_ok [] (some (CpFileContent.valid [])) 0 "run" 24 500 [] rfl)
  exact ⟨h.2.1, h.2.2⟩

/-- Witness for C5: a concrete run's snapshot has pairwise-distinct
`(channel, id)` pairs, and with two records sharing key `a:1` the kept
record is the later one. -/
theorem claim_C5_witness :
    (runOutcomeOf [exChannelInc] [("WhaleFollower", 100)] 0 "run" 24 500).final.Pairwise
      (fun a b => ¬(a.channel = b.channel ∧ a.id = b.id))
    ∧ [exRecA, exRecB].reverse.find? (fun x => dedupKey x == dedupKey exRecB) =
        some exRecB := by
  constructor
  · exact claim_C5.1 [exChannelInc] (some (CpFileContent.valid [("WhaleFollower", 100)]))
      [("WhaleFollower", 100)] 0 "run" 24 500 _ rfl
      (collect_all_eq_ok [exChannelInc]
        (some (CpFileContent.valid [("WhaleFollower", 100)])) 0 "run" 24 500
        [("WhaleFollower", 100)] rfl)
  · exact claim_C5.2.1 [exRecA, exRecB] exRecB (by decide)

/-- Witness for C7: a failed entity resolution yields the empty result and
drops out of the run; a rate-limit signal after three yielded messages
pauses 31 seconds and returns exactly those three items. -/
theorem claim_C7_witness :
    fetch_channel_messages exChannelBad 0 500 none = { items := [], sleepSeconds := 0 }
    ∧ collectChannels [exChannelBad, exChannelBoot] [] (-86400) 500 =
        collectChannels [exChannelBoot] [] (-86400) 500
    ∧ fetchLoop "coinnesskr" 0 500 none [FetchEvent.floodWait 30] [] =
        { items := [], sleepSeconds := 31 }
    ∧ (fetch_channel_messages exChannelRL 0 500 none).items =
        (fetch_channel_messages (Channel.mk "coinnesskr" true exStreamRLpre)
          0 500 none).items
    ∧ (fetch_channel_messages exChannelRL 0 500 none).items.map MsgRec.id =
        [13, 12, 11] := by
  refine ⟨claim_C7.1 exChannelBad 0 500 none rfl,
    claim_C7.2.1 exChannelBad [exChannelBoot] [] (-86400) 500 rfl,
    claim_C7.2.2.1 "coinnesskr" 0 500 none 30 [] [], ?_, by decide⟩
  exact claim_C7.2.2.2.1 exChannelRL exStreamRLpre 30
    [FetchEvent.message (TMsg.mk 10 (some 5) none none none none none)] 0 500 none rfl

/-- Witness for C8 at `now = 0`, `H = 1`: an item 100 seconds old is kept,
an item two hours old is excluded, and the no-snapshot case returns the
empty response. -/
theorem claim_C8_witness :
    get_messages (some [MsgRec.mk "a" 1 none none none none none (-100) "u1",
                        MsgRec.mk "a" 2 none none none none none (-7200) "u2"]) 0 1 =
      Except.ok { source := some "latest.json",
                  messages := [MsgRec.mk "a" 1 none none none none none (-100) "u1"],
                  count := 1, note := none }
    ∧ get_messages none 0 1 =
        Except.ok { source := none, messages := [], count := 0,
                    note := some "no data collected" } := by
  have h := claim_C8 0 1 [MsgRec.mk "a" 1 none none none none none (-100) "u1",
    MsgRec.mk "a" 2 none none none none none (-7200) "u2"] (by decide) (by decide)
  refine ⟨?_, h.2.2⟩
  rw [h.1]
  congr 1

/-- Witness for C10: with cap 0 the incremental fetch returns both items
above the cursor and the bootstrap fetch returns both items inside the
horizon — two items each, not zero. -/
theorem claim_C10_witness :
    (fetch_channel_messages exChannelInc 9999 0 (some 100)).items =
      (datedRecords "WhaleFollower" exStreamInc).filter (fun r => decide (100 < r.id))
    ∧ (fetch_channel_messages exChannelInc 9999 0 (some 100)).items.length = 2
    ∧ (fetch_channel_messages exChannelBoot (-86400) 0 none).items =
        (datedRecords "cryptoquant_kr" exStreamBoot).takeWhile
          (fun r => decide ((-86400 : Int) ≤ r.date))
    ∧ (fetch_channel_messages exChannelBoot (-86400) 0 none).items.length = 2 :=
  ⟨claim_C10.1 exChannelInc 9999 100 rfl (by decide), by decide,
    claim_C10.2 exChannelBoot (-86400) rfl (by decide), by decide⟩

end TelegramCollector
